import Mathlib

/-!
Verification of the content ordering and presentation utilities of the
astro-blog repository: the speaking-event sorter `getSortedEvents`
(src/unnamed/part_000, two variants) and the list-item renderer `Event`
(src/components/Event.tsx), shallowly embedded in Lean.
-/

namespace AstroBlog

/-! ## Timestamp parsing: a model of `new Date(s).getTime()`

JavaScript's `new Date(s)` parses the ECMAScript Date Time String Format
`YYYY-MM-DDTHH:mm:ss.sssZ` (with the time part optional) and yields the
number of milliseconds since the Unix epoch, or NaN when the string is not
a valid date.  We model the format subset actually exercised by this
repository and the specification (date-only, or a full UTC date-time with
a `Z` suffix and optional 3-digit milliseconds); every other string is
mapped to `none`, the model of NaN. -/

/-- The numeric value of a decimal digit character, if it is one. -/
def digitVal (c : Char) : Option Nat :=
  if c.isDigit then some (c.toNat - 48) else none

/-- Interpret a list of characters as a decimal number; `none` if any
character is not a digit. -/
def digitsToNat : List Char → Option Nat
  | [] => some 0
  | c :: cs => do
      let d ← digitVal c
      let rest ← digitsToNat cs
      pure (d * 10 ^ cs.length + rest)

/-- Gregorian leap-year test. -/
def isLeap (y : Nat) : Bool :=
  (y % 4 == 0 && y % 100 != 0) || (y % 400 == 0)

/-- Days in a month of the proleptic Gregorian calendar. -/
def daysInMonth (y m : Nat) : Nat :=
  if m == 2 then (if isLeap y then 29 else 28)
  else if m == 4 || m == 6 || m == 9 || m == 11 then 30
  else 31

/-- Days from the Unix epoch (1970-01-01) to the civil date `y-m-d`,
using the standard days-from-civil computation with floor division. -/
def daysFromCivil (y m d : Nat) : Int :=
  let yi : Int := if m ≤ 2 then (y : Int) - 1 else (y : Int)
  let era : Int := Int.fdiv yi 400
  let yoe : Int := yi - era * 400
  let mp : Int := if m ≤ 2 then (m : Int) + 9 else (m : Int) - 3
  let doy : Int := Int.fdiv (153 * mp + 2) 5 + (d : Int) - 1
  let doe : Int := yoe * 365 + Int.fdiv yoe 4 - Int.fdiv yoe 100 + doy
  era * 146097 + doe - 719468

/-- Parse the `YYYY-MM-DD` date portion, validating calendar bounds as the
ECMAScript parser does. -/
def parseYMD : List Char → Option (Nat × Nat × Nat)
  | [y1, y2, y3, y4, '-', m1, m2, '-', d1, d2] => do
      let y ← digitsToNat [y1, y2, y3, y4]
      let m ← digitsToNat [m1, m2]
      let d ← digitsToNat [d1, d2]
      if 1 ≤ m ∧ m ≤ 12 ∧ 1 ≤ d ∧ d ≤ daysInMonth y m then
        pure (y, m, d)
      else none
  | _ => none

/-- Parse the `HH:mm:ss` or `HH:mm:ss.sss` time portion, returning
(hour, minute, second, millisecond). -/
def parseHMS : List Char → Option (Nat × Nat × Nat × Nat)
  | [h1, h2, ':', n1, n2, ':', s1, s2] => do
      let h ← digitsToNat [h1, h2]
      let n ← digitsToNat [n1, n2]
      let s ← digitsToNat [s1, s2]
      if (h ≤ 23 ∧ n ≤ 59 ∧ s ≤ 59) ∨ (h = 24 ∧ n = 0 ∧ s = 0) then
        pure (h, n, s, 0)
      else none
  | [h1, h2, ':', n1, n2, ':', s1, s2, '.', f1, f2, f3] => do
      let h ← digitsToNat [h1, h2]
      let n ← digitsToNat [n1, n2]
      let s ← digitsToNat [s1, s2]
      let f ← digitsToNat [f1, f2, f3]
      if h ≤ 23 ∧ n ≤ 59 ∧ s ≤ 59 then
        pure (h, n, s, f)
      else none
  | _ => none

/-- Model of `new Date(s).getTime()`: milliseconds since the Unix epoch,
or `none` for NaN (unparseable string). -/
def parseJsDate (s : String) : Option Int :=
  let cs := s.toList
  let datePart := cs.take 10
  let rest := cs.drop 10
  match parseYMD datePart with
  | none => none
  | some (y, m, d) =>
      match rest with
      | [] => some ((daysFromCivil y m d) * 86400000)
      | 'T' :: r =>
          match r.reverse with
          | 'Z' :: tr =>
              match parseHMS tr.reverse with
              | some (h, n, sec, ms) =>
                  some (((daysFromCivil y m d) * 86400 +
                          (h : Int) * 3600 + (n : Int) * 60 + (sec : Int)) * 1000 + (ms : Int))
              | none => none
          | _ => none
      | _ => none

/-! ## The data model

The sorter operates on `CollectionEntry<"speaking">[]`.  The repository's
two sorter variants disagree on the frontmatter field holding the ordering
timestamp (`data.date` vs `data.pubDatetime`), so the embedded record
carries both, together with the display name. -/

/-- Frontmatter data of a speaking entry, restricted to the fields the
sorter variants read plus the display name. -/
structure SpeakingData where
  name : String
  date : String
  pubDatetime : String
deriving DecidableEq, Repr

/-- A content-collection entry as consumed by `getSortedEvents`. -/
structure CollectionEntry where
  data : SpeakingData
deriving DecidableEq, Repr

/-! ## The sorter

```
const getSortedEvents = (posts) =>
  posts.sort(
    (a, b) =>
      Math.floor(new Date(b.data.date).getTime() / 1000) -
      Math.floor(new Date(a.data.date).getTime() / 1000)
  );
```

`Math.floor(x / 1000)` on a millisecond timestamp is floor division
(`Int.fdiv`), and `Math.floor(NaN) = NaN`, `NaN - x = NaN`.  The ES
`SortCompare` operation treats a NaN comparator result as `+0`, i.e. as
"leave the pair in order".  `Array.prototype.sort` is required to be
stable (ES2019) and to return a permutation of the array; we model it
with stable insertion sort on the relation "comparator result ≤ 0". -/

/-- The whole-second sort key of a timestamp string:
`Math.floor(new Date(s).getTime() / 1000)`, `none` for NaN. -/
def secKey (s : String) : Option Int :=
  (parseJsDate s).map (fun ms => Int.fdiv ms 1000)

/-- The comparator of `getSortedEvents` (variant ordering by `data.date`):
`Math.floor(getTime(b)/1000) - Math.floor(getTime(a)/1000)`.
`none` models a NaN result (either date unparseable). -/
def eventCompare (a b : CollectionEntry) : Option Int :=
  match secKey b.data.date, secKey a.data.date with
  | some kb, some ka => some (kb - ka)
  | _, _ => none

/-- ES `SortCompare` semantics applied to a comparator result: NaN is
treated as `+0`, so `a` stays before `b` exactly when the (coerced)
result is `≤ 0`. -/
def eventLe (a b : CollectionEntry) : Prop :=
  (eventCompare a b).getD 0 ≤ 0

instance : DecidableRel eventLe := fun a b =>
  inferInstanceAs (Decidable ((eventCompare a b).getD 0 ≤ 0))

/-- `getSortedEvents`, variant ordering by `data.date` (part_000, lines
3–10): a stable sort of the entries under the comparator above. -/
def getSortedEvents (posts : List CollectionEntry) : List CollectionEntry :=
  posts.insertionSort eventLe

/-- The comparator of the second sorter variant, ordering by
`data.pubDatetime` (part_000, lines 11–20). -/
def eventComparePub (a b : CollectionEntry) : Option Int :=
  match secKey b.data.pubDatetime, secKey a.data.pubDatetime with
  | some kb, some ka => some (kb - ka)
  | _, _ => none

/-- `SortCompare` semantics for the `pubDatetime` variant. -/
def eventLePub (a b : CollectionEntry) : Prop :=
  (eventComparePub a b).getD 0 ≤ 0

instance : DecidableRel eventLePub := fun a b =>
  inferInstanceAs (Decidable ((eventComparePub a b).getD 0 ≤ 0))

/-- `getSortedEvents`, variant ordering by `data.pubDatetime`. -/
def getSortedEventsPub (posts : List CollectionEntry) : List CollectionEntry :=
  posts.insertionSort eventLePub

end AstroBlog

namespace AstroBlog

/-! ## The renderer

```
export default function Event({ frontmatter }: Props) {
  const { name, link, websiteLink, date, description, organizer } = frontmatter;
  return (
    <li ...>
      <h3 ...>{organizer}</h3>
      {websiteLink && (<a href={websiteLink} ...>{websiteLink}</a>)}
      {link ? (<a target="_blank" href={link} ...><h2>{name}</h2></a>)
            : (<h2 ...>{name}</h2>)}
      <Datetime hideTime={true} datetime={date} />
      <p>{description}</p>
    </li>
  );
}
```

Frontmatter fields may be absent (`undefined` in JS), modelled as `none`.
React renders `undefined` (and the empty string) as no text, so element
text content is `Option String`.  The JSX conditionals use JS truthiness:
both `undefined` and `""` are falsy. -/

/-- A frontmatter record as destructured by the `Event` component; every
field may be absent. -/
structure EventFrontmatter where
  name : Option String
  link : Option String
  websiteLink : Option String
  date : Option String
  description : Option String
  organizer : Option String
deriving DecidableEq, Repr

/-- JS truthiness of a possibly-absent string: `undefined` and `""` are
falsy. -/
def truthy : Option String → Bool
  | none => false
  | some s => !s.isEmpty

/-- A display element emitted by the `Event` component, one constructor per
kind of child node of the `<li>`. -/
inductive DisplayNode where
  /-- The `<h3>` organizer heading. -/
  | organizerHeading (text : Option String)
  /-- A bare `<a href>` element (the `websiteLink` anchor). -/
  | anchor (href : String) (text : Option String)
  /-- The `<h2>` name heading wrapped in an `<a href>` (activatable). -/
  | linkedHeading (href : String) (text : Option String)
  /-- The `<h2>` name heading with no link (plain emphasized text). -/
  | plainHeading (text : Option String)
  /-- The `<Datetime hideTime datetime>` element. -/
  | datetimeEl (hideTime : Bool) (value : Option String)
  /-- The `<p>` description paragraph. -/
  | paragraph (text : Option String)
deriving DecidableEq, Repr

/-- The `Event` component: the ordered children of the returned `<li>`.
`{websiteLink && ...}` emits nothing when `websiteLink` is falsy, and the
`link ? ... : ...` ternary picks the linked or the plain heading. -/
def Event (frontmatter : EventFrontmatter) : List DisplayNode :=
  DisplayNode.organizerHeading frontmatter.organizer ::
  (match frontmatter.websiteLink with
   | some w => if w.isEmpty then [] else [DisplayNode.anchor w (some w)]
   | none => []) ++
  [(match frontmatter.link with
    | some l =>
        if l.isEmpty then DisplayNode.plainHeading frontmatter.name
        else DisplayNode.linkedHeading l frontmatter.name
    | none => DisplayNode.plainHeading frontmatter.name),
   DisplayNode.datetimeEl true frontmatter.date,
   DisplayNode.paragraph frontmatter.description]

/-- A node is activatable when it is an anchor or an anchor-wrapped
heading. -/
def isActivatable : DisplayNode → Bool
  | DisplayNode.anchor _ _ => true
  | DisplayNode.linkedHeading _ _ => true
  | _ => false

end AstroBlog

namespace AstroBlog

/-! ## Generic lemmas about stable insertion sort

`Array.prototype.sort`'s comparator here is total (any two entries compare
`≤ 0` at least one way) but not transitive when unparseable dates are
present, so we prove adjacent-pair (`Chain'`) versions of sortedness and
idempotence that need only totality. -/

section SortLemmas

variable {α : Type} {r s : α → α → Prop} [DecidableRel r] [DecidableRel s]

/-- Inserting into a chain-ordered list preserves the chain, provided the
relation is total. -/
theorem orderedInsert_chain (tot : ∀ a b, r a b ∨ r b a) (a : α) :
    ∀ l : List α, List.Chain' r l → List.Chain' r (l.orderedInsert r a)
  | [], _ => List.chain'_singleton a
  | b :: l, h => by
    by_cases hab : r a b
    · rw [List.orderedInsert, if_pos hab]
      exact List.chain'_cons.mpr ⟨hab, h⟩
    · rw [List.orderedInsert, if_neg hab]
      have hba : r b a := (tot a b).resolve_left hab
      have htail : List.Chain' r (l.orderedInsert r a) :=
        orderedInsert_chain tot a l h.tail
      refine List.chain'_cons'.mpr ⟨?_, htail⟩
      intro y hy
      cases l with
      | nil =>
          simp only [List.orderedInsert, List.head?_cons, Option.mem_def,
            Option.some.injEq] at hy
          exact hy ▸ hba
      | cons c l' =>
          rw [List.orderedInsert] at hy
          by_cases hac : r a c
          · rw [if_pos hac] at hy
            simp only [List.head?_cons, Option.mem_def, Option.some.injEq] at hy
            exact hy ▸ hba
          · rw [if_neg hac] at hy
            simp only [List.head?_cons, Option.mem_def, Option.some.injEq] at hy
            exact hy ▸ (List.chain'_cons.mp h).1

/-- The output of insertion sort is chain-ordered whenever the relation is
total (no transitivity required). -/
theorem insertionSort_chain (tot : ∀ a b, r a b ∨ r b a) :
    ∀ l : List α, List.Chain' r (l.insertionSort r)
  | [] => List.chain'_nil
  | a :: l => orderedInsert_chain tot a _ (insertionSort_chain tot l)

/-- Insertion sort leaves a chain-ordered list unchanged. -/
theorem insertionSort_eq_of_chain :
    ∀ {l : List α}, List.Chain' r l → l.insertionSort r = l
  | [], _ => rfl
  | [_], _ => rfl
  | a :: b :: l, h => by
    have hab : r a b := (List.chain'_cons.mp h).1
    have ih : (b :: l).insertionSort r = b :: l :=
      insertionSort_eq_of_chain (List.chain'_cons.mp h).2
    rw [List.insertionSort, ih, List.orderedInsert, if_pos hab]

/-- A chain for `p` is a chain for `q` when `p` implies `q` on the list's
members. -/
theorem chain'_imp_of_mem {p q : α → α → Prop} :
    ∀ {l : List α}, (∀ a ∈ l, ∀ b ∈ l, p a b → q a b) →
      List.Chain' p l → List.Chain' q l
  | [], _, _ => List.chain'_nil
  | [a], _, _ => List.chain'_singleton a
  | a :: b :: l, h, hc =>
    List.chain'_cons.mpr
      ⟨h a (by simp) b (by simp) (List.chain'_cons.mp hc).1,
       chain'_imp_of_mem
         (fun x hx y hy => h x (List.mem_cons_of_mem a hx) y (List.mem_cons_of_mem a hy))
         (List.chain'_cons.mp hc).2⟩

/-- Ordered insertion depends on the relation only at the inserted element
versus the list's members. -/
theorem orderedInsert_congr_of_mem (a : α) :
    ∀ l : List α, (∀ b ∈ l, r a b ↔ s a b) →
      l.orderedInsert r a = l.orderedInsert s a
  | [], _ => rfl
  | b :: l, h => by
    by_cases hab : r a b
    · rw [List.orderedInsert, if_pos hab, List.orderedInsert,
        if_pos ((h b (by simp)).mp hab)]
    · rw [List.orderedInsert, if_neg hab, List.orderedInsert,
        if_neg (fun hs => hab ((h b (by simp)).mpr hs)),
        orderedInsert_congr_of_mem a l (fun c hc => h c (List.mem_cons_of_mem b hc))]

/-- Insertion sort depends on the relation only at pairs of list members. -/
theorem insertionSort_congr_of_mem :
    ∀ l : List α, (∀ a ∈ l, ∀ b ∈ l, (r a b ↔ s a b)) →
      l.insertionSort r = l.insertionSort s
  | [], _ => rfl
  | a :: l, h => by
    have ih := insertionSort_congr_of_mem l
      (fun x hx y hy => h x (List.mem_cons_of_mem a hx) y (List.mem_cons_of_mem a hy))
    rw [List.insertionSort, ih, List.insertionSort,
      orderedInsert_congr_of_mem a _
        (fun b hb =>
          h a (by simp) b (List.mem_cons_of_mem a ((List.mem_insertionSort s).mp hb)))]

end SortLemmas

/-- The sort relation of `getSortedEvents` is total: every pair of entries
is accepted in at least one order (a NaN comparator result counts as 0). -/
theorem eventLe_total (a b : CollectionEntry) : eventLe a b ∨ eventLe b a := by
  unfold eventLe eventCompare
  rcases ha : secKey a.data.date with _ | ka <;>
    rcases hb : secKey b.data.date with _ | kb <;> simp
  omega

/-- The sort relation of the `pubDatetime` variant is total. -/
theorem eventLePub_total (a b : CollectionEntry) : eventLePub a b ∨ eventLePub b a := by
  unfold eventLePub eventComparePub
  rcases ha : secKey a.data.pubDatetime with _ | ka <;>
    rcases hb : secKey b.data.pubDatetime with _ | kb <;> simp
  omega

/-- When both entries carry the same string in `date` and `pubDatetime`,
the two variants' sort relations agree. -/
theorem eventLe_iff_eventLePub {a b : CollectionEntry}
    (ha : a.data.date = a.data.pubDatetime) (hb : b.data.date = b.data.pubDatetime) :
    eventLe a b ↔ eventLePub a b := by
  unfold eventLe eventLePub eventCompare eventComparePub
  rw [ha, hb]

end AstroBlog

namespace AstroBlog

/-! ## Concrete records used by the specification's scenarios -/

/-- Record `A` of the spec's sort scenario (`publishedAt` 2023-01-01). -/
def entryA : CollectionEntry :=
  ⟨⟨"A", "2023-01-01T00:00:00Z", "2023-01-01T00:00:00Z"⟩⟩

/-- Record `B` of the spec's sort scenario (`publishedAt` 2023-06-01). -/
def entryB : CollectionEntry :=
  ⟨⟨"B", "2023-06-01T00:00:00Z", "2023-06-01T00:00:00Z"⟩⟩

/-- Record `C` of the spec's sort scenario (`publishedAt` 2022-12-01). -/
def entryC : CollectionEntry :=
  ⟨⟨"C", "2022-12-01T00:00:00Z", "2022-12-01T00:00:00Z"⟩⟩

/-- A record whose `publishedAt` does not parse. -/
def badEntry : CollectionEntry := ⟨⟨"bad", "not-a-date", "not-a-date"⟩⟩

/-- Entry with a sub-second timestamp, .100 into the same second as
`subSecB`. -/
def subSecA : CollectionEntry :=
  ⟨⟨"sA", "2023-05-05T10:00:00.100Z", "2023-05-05T10:00:00.100Z"⟩⟩

/-- Entry with a sub-second timestamp, .900 into the same second as
`subSecA`. -/
def subSecB : CollectionEntry :=
  ⟨⟨"sB", "2023-05-05T10:00:00.900Z", "2023-05-05T10:00:00.900Z"⟩⟩

/-! ## Claims about the sorter -/

/-- C1: on inputs whose `publishedAt` timestamps all parse, every adjacent
pair (a, b) of the output of `getSortedEvents` satisfies
`a.publishedAt >= b.publishedAt` at whole-second resolution (descending),
and the spec's scenario `[A, B, C]` sorts to `[B, A, C]`. -/
theorem getSortedEvents_desc (posts : List CollectionEntry)
    (h : ∀ e ∈ posts, (secKey e.data.date).isSome) :
    List.Chain'
      (fun a b => ∃ ka kb, secKey a.data.date = some ka ∧
        secKey b.data.date = some kb ∧ kb ≤ ka) (getSortedEvents posts) ∧
    getSortedEvents [entryA, entryB, entryC] = [entryB, entryA, entryC] := by
  constructor
  · have hchain : List.Chain' eventLe (getSortedEvents posts) :=
      insertionSort_chain eventLe_total posts
    refine chain'_imp_of_mem ?_ hchain
    intro a hma b hmb hab
    have hamem : a ∈ posts := (List.mem_insertionSort eventLe).mp hma
    have hbmem : b ∈ posts := (List.mem_insertionSort eventLe).mp hmb
    rcases Option.isSome_iff_exists.mp (h a hamem) with ⟨ka, hka⟩
    rcases Option.isSome_iff_exists.mp (h b hbmem) with ⟨kb, hkb⟩
    refine ⟨ka, kb, hka, hkb, ?_⟩
    unfold eventLe eventCompare at hab
    rw [hka, hkb] at hab
    simp at hab
    omega
  · decide

/-- Witness for C1 at the spec's scenario input. -/
theorem getSortedEvents_desc_witness :
    List.Chain'
      (fun a b => ∃ ka kb, secKey a.data.date = some ka ∧
        secKey b.data.date = some kb ∧ kb ≤ ka)
      (getSortedEvents [entryA, entryB, entryC]) ∧
    getSortedEvents [entryA, entryB, entryC] = [entryB, entryA, entryC] :=
  getSortedEvents_desc [entryA, entryB, entryC] (by decide)

/-- C2: on inputs with valid timestamps, `getSortedEvents` returns a
permutation of its input — the same multiset of records, none dropped,
duplicated, or modified. -/
theorem getSortedEvents_perm (posts : List CollectionEntry)
    (_h : ∀ e ∈ posts, (secKey e.data.date).isSome) :
    List.Perm (getSortedEvents posts) posts :=
  List.perm_insertionSort eventLe posts

/-- Witness for C2 at the spec's scenario input. -/
theorem getSortedEvents_perm_witness :
    List.Perm (getSortedEvents [entryA, entryB, entryC]) [entryA, entryB, entryC] :=
  getSortedEvents_perm [entryA, entryB, entryC] (by decide)

/-- C3 counterexample: on an input containing the record with
`publishedAt = "not-a-date"` (which indeed does not parse), the sort does
not fail: it returns an ordinary output sequence. -/
theorem getSortedEvents_no_failure_on_invalid :
    parseJsDate badEntry.data.date = none ∧
    getSortedEvents [entryA, badEntry] = [entryA, badEntry] := by decide

/-- C3 amended: the sort never fails; a record whose `publishedAt` does
not parse makes the comparator evaluate to NaN (treated as 0, i.e. equal
to everything), and the operation still returns a permutation of the
input. -/
theorem getSortedEvents_invalid_no_failure (posts : List CollectionEntry)
    (e : CollectionEntry) (_he : e ∈ posts)
    (hbad : parseJsDate e.data.date = none) (b : CollectionEntry) :
    List.Perm (getSortedEvents posts) posts ∧
    (eventCompare e b).getD 0 = 0 ∧ (eventCompare b e).getD 0 = 0 := by
  have hk : secKey e.data.date = none := by
    unfold secKey
    rw [hbad]
    rfl
  refine ⟨List.perm_insertionSort eventLe posts, ?_, ?_⟩
  · unfold eventCompare
    rcases hkb : secKey b.data.date with _ | kb <;> simp [hk, hkb]
  · unfold eventCompare
    rcases hkb : secKey b.data.date with _ | kb <;> simp [hk, hkb]

/-- Witness for the amended C3. -/
theorem getSortedEvents_invalid_no_failure_witness :
    List.Perm (getSortedEvents [entryA, badEntry]) [entryA, badEntry] ∧
    (eventCompare badEntry entryA).getD 0 = 0 ∧
    (eventCompare entryA badEntry).getD 0 = 0 :=
  getSortedEvents_invalid_no_failure [entryA, badEntry] badEntry
    (by decide) (by decide) entryA

/-- C5: on inputs with valid timestamps, the sort is idempotent: sorting
the sorted output changes nothing. -/
theorem getSortedEvents_idempotent (posts : List CollectionEntry)
    (_h : ∀ e ∈ posts, (secKey e.data.date).isSome) :
    getSortedEvents (getSortedEvents posts) = getSortedEvents posts :=
  insertionSort_eq_of_chain (insertionSort_chain eventLe_total posts)

/-- Witness for C5 at the spec's scenario input. -/
theorem getSortedEvents_idempotent_witness :
    getSortedEvents (getSortedEvents [entryA, entryB, entryC]) =
      getSortedEvents [entryA, entryB, entryC] :=
  getSortedEvents_idempotent [entryA, entryB, entryC] (by decide)

/-- C6: timestamp comparison happens at whole-second resolution: two
records whose `publishedAt` instants fall in the same truncated second
compare as equal (comparator 0 both ways), so their relative order is
left unchanged by the sort. -/
theorem eventCompare_whole_second (a b : CollectionEntry) (ta tb : Int)
    (ha : parseJsDate a.data.date = some ta)
    (hb : parseJsDate b.data.date = some tb)
    (hsec : Int.fdiv ta 1000 = Int.fdiv tb 1000) :
    eventCompare a b = some 0 ∧ eventCompare b a = some 0 ∧
    getSortedEvents [a, b] = [a, b] := by
  have hka : secKey a.data.date = some (Int.fdiv ta 1000) := by
    unfold secKey
    rw [ha]
    rfl
  have hkb : secKey b.data.date = some (Int.fdiv tb 1000) := by
    unfold secKey
    rw [hb]
    rfl
  have h1 : eventCompare a b = some 0 := by
    unfold eventCompare
    rw [hka, hkb, hsec]
    simp
  have h2 : eventCompare b a = some 0 := by
    unfold eventCompare
    rw [hka, hkb, hsec]
    simp
  have hle : eventLe a b := by
    unfold eventLe
    rw [h1]
    simp
  refine ⟨h1, h2, ?_⟩
  unfold getSortedEvents
  simp only [List.insertionSort, List.orderedInsert]
  rw [if_pos hle]

/-- Witness for C6: two timestamps 800 ms apart inside the same second. -/
theorem eventCompare_whole_second_witness :
    (parseJsDate subSecA.data.date = some 1683280800100 ∧
     parseJsDate subSecB.data.date = some 1683280800900 ∧
     Int.fdiv (1683280800100 : Int) 1000 = Int.fdiv (1683280800900 : Int) 1000) ∧
    (eventCompare subSecA subSecB = some 0 ∧
     eventCompare subSecB subSecA = some 0 ∧
     getSortedEvents [subSecA, subSecB] = [subSecA, subSecB]) :=
  ⟨⟨by decide, by decide, by decide⟩,
   eventCompare_whole_second subSecA subSecB 1683280800100 1683280800900
     (by decide) (by decide) (by decide)⟩

/-- C9: the two source variants of the sorter agree on every input whose
records carry the same string in `date` and `pubDatetime`. -/
theorem getSortedEvents_variants_agree (posts : List CollectionEntry)
    (h : ∀ e ∈ posts, e.data.date = e.data.pubDatetime) :
    getSortedEvents posts = getSortedEventsPub posts := by
  unfold getSortedEvents getSortedEventsPub
  exact insertionSort_congr_of_mem posts
    (fun a ha b hb => eventLe_iff_eventLePub (h a ha) (h b hb))

/-- Witness for C9 at a two-record input with equal field values. -/
theorem getSortedEvents_variants_agree_witness :
    getSortedEvents [entryA, entryB] = getSortedEventsPub [entryA, entryB] :=
  getSortedEvents_variants_agree [entryA, entryB] (by decide)

/-- C10: `getSortedEvents` is total and never raises: for every input,
including ones with unparseable timestamps, it returns a permutation of
the input records. -/
theorem getSortedEvents_total_perm (posts : List CollectionEntry) :
    List.Perm (getSortedEvents posts) posts :=
  List.perm_insertionSort eventLe posts

end AstroBlog

namespace AstroBlog

/-! ## Claims about the renderer -/

/-- Classifier: the bare anchor element (`websiteLink`). -/
def isAnchorNode : DisplayNode → Bool
  | DisplayNode.anchor _ _ => true
  | _ => false

/-- Classifier: the anchor-wrapped name heading. -/
def isLinkedHeadingNode : DisplayNode → Bool
  | DisplayNode.linkedHeading _ _ => true
  | _ => false

/-- Classifier: the plain (non-link) name heading. -/
def isPlainHeadingNode : DisplayNode → Bool
  | DisplayNode.plainHeading _ => true
  | _ => false

/-- Frontmatter with the required `name` field absent. -/
def noNameFm : EventFrontmatter :=
  ⟨none, none, none, some "2023-10-23T08:00:00Z", some "d", some "Org"⟩

/-- Frontmatter with every field absent. -/
def missingAllFm : EventFrontmatter := ⟨none, none, none, none, none, none⟩

/-- Frontmatter whose `link` field is present but the empty string. -/
def emptyLinkFm : EventFrontmatter :=
  ⟨some "Talk", some "", none, some "2023-10-23T08:00:00Z", none, some "Org"⟩

/-- Frontmatter with the optional `description` field absent. -/
def noDescFm : EventFrontmatter :=
  ⟨some "T", none, none, some "2023-10-23T08:00:00Z", none, some "O"⟩

/-- C4 counterexample: on a record missing the required `name` field the
renderer does not fail — it returns the full display structure, with an
empty heading. -/
theorem event_no_failure_on_missing_name :
    noNameFm.name = none ∧
    Event noNameFm =
      [DisplayNode.organizerHeading (some "Org"), DisplayNode.plainHeading none,
       DisplayNode.datetimeEl true (some "2023-10-23T08:00:00Z"),
       DisplayNode.paragraph (some "d")] := by decide

/-- C4 amended: the renderer is total and raises no error: a record with
the required fields (`name`, `date`) absent still yields a display item in
which the heading and date elements are present but carry no value. -/
theorem event_total_on_missing_required (fm : EventFrontmatter)
    (hn : fm.name = none) (hl : fm.link = none) (hd : fm.date = none) :
    DisplayNode.plainHeading none ∈ Event fm ∧
    DisplayNode.datetimeEl true none ∈ Event fm := by
  rcases fm with ⟨nm, lk, wl, dt, ds, og⟩
  simp only at hn hl hd
  subst hn
  subst hl
  subst hd
  rcases wl with _ | w
  · simp [Event]
  · by_cases hw : w.isEmpty <;> simp [Event, hw]

/-- Witness for the amended C4. -/
theorem event_total_on_missing_required_witness :
    DisplayNode.plainHeading none ∈ Event missingAllFm ∧
    DisplayNode.datetimeEl true none ∈ Event missingAllFm :=
  event_total_on_missing_required missingAllFm rfl rfl rfl

/-- C7 counterexample: a record whose `link` field is present but empty
(`""`) is rendered with a plain, non-activatable heading — so "activatable
exactly when primaryLink is present" fails. -/
theorem event_present_empty_link_not_activatable :
    emptyLinkFm.link.isSome = true ∧
    (Event emptyLinkFm).countP isActivatable = 0 ∧
    DisplayNode.plainHeading (some "Talk") ∈ Event emptyLinkFm := by decide

/-- C7 amended: the heading is an activatable link targeting `link`
exactly when `link` is present and non-empty (truthy), and plain
emphasized text otherwise; a truthy `websiteLink` contributes one further
activatable anchor, so both truthy yields exactly two activatable
elements. -/
theorem event_link_policy (fm : EventFrontmatter) :
    (if truthy fm.link
     then DisplayNode.linkedHeading (fm.link.getD "") fm.name ∈ Event fm
     else DisplayNode.plainHeading fm.name ∈ Event fm) ∧
    (Event fm).countP isLinkedHeadingNode = (if truthy fm.link then 1 else 0) ∧
    (Event fm).countP isPlainHeadingNode = (if truthy fm.link then 0 else 1) ∧
    (if truthy fm.websiteLink
     then DisplayNode.anchor (fm.websiteLink.getD "")
            (some (fm.websiteLink.getD "")) ∈ Event fm
     else (Event fm).countP isAnchorNode = 0) ∧
    (Event fm).countP isActivatable =
      (if truthy fm.link then 1 else 0) + (if truthy fm.websiteLink then 1 else 0) := by
  rcases fm with ⟨nm, lk, wl, dt, ds, og⟩
  rcases lk with _ | l
  · rcases wl with _ | w
    · simp [Event, truthy, isActivatable, isAnchorNode, isLinkedHeadingNode,
        isPlainHeadingNode]
    · by_cases hw : w.isEmpty <;>
        simp [Event, truthy, hw, isActivatable, isAnchorNode, isLinkedHeadingNode,
          isPlainHeadingNode]
  · rcases wl with _ | w
    · by_cases hl : l.isEmpty <;>
        simp [Event, truthy, hl, isActivatable, isAnchorNode, isLinkedHeadingNode,
          isPlainHeadingNode]
    · by_cases hl : l.isEmpty <;> by_cases hw : w.isEmpty <;>
        simp [Event, truthy, hl, hw, isActivatable, isAnchorNode, isLinkedHeadingNode,
          isPlainHeadingNode]

/-- C8 counterexample: a record with the optional `description` absent
still emits the (empty) paragraph element — the element is not omitted. -/
theorem event_emits_empty_paragraph :
    noDescFm.description = none ∧
    DisplayNode.paragraph none ∈ Event noDescFm := by decide

/-- C8 amended: only the link elements are conditionally omitted — an
absent (or empty) `websiteLink` produces no anchor — while the organizer
heading, the date element and the description paragraph are always
emitted, carrying no content when their field is absent. -/
theorem event_optional_field_policy (fm : EventFrontmatter) :
    DisplayNode.paragraph fm.description ∈ Event fm ∧
    DisplayNode.organizerHeading fm.organizer ∈ Event fm ∧
    DisplayNode.datetimeEl true fm.date ∈ Event fm ∧
    (Event fm).countP isAnchorNode = (if truthy fm.websiteLink then 1 else 0) := by
  rcases fm with ⟨nm, lk, wl, dt, ds, og⟩
  rcases lk with _ | l
  · rcases wl with _ | w
    · simp [Event, truthy, isAnchorNode]
    · by_cases hw : w.isEmpty <;> simp [Event, truthy, hw, isAnchorNode]
  · rcases wl with _ | w
    · by_cases hl : l.isEmpty <;> simp [Event, truthy, hl, isAnchorNode]
    · by_cases hl : l.isEmpty <;> by_cases hw : w.isEmpty <;>
        simp [Event, truthy, hl, hw, isAnchorNode]

end AstroBlog
